import Mathlib

/-!
# go-simplelog: a shallow embedding of `logger.go`

The development embeds the logger of `src/logger.go` as pure Lean functions over explicit
state and proves properties of the queue, the dispatcher, the synchronous drain, the
background writer and the file rotator.

Conventions of the embedding.

* Go `int` / `int64` values are `Int`; no arithmetic in the program can overflow (the only
  arithmetic is the loop counter of `reuseFile` and comparisons).
* Go strings and `bytes.Buffer` contents are `String`; `Buffer.Len()` and `FileInfo.Size()` are
  the byte length `String.utf8ByteSize`.
* A run-time panic of the Go program is an `Except.error` carrying a `Fault`.
* The process-wide variable `slogger` is passed explicitly; every method of the source is only
  ever called on `slogger` itself, so the receiver `l` and the global coincide.
* The file system is a map from paths to nodes, with modification times in whole Unix seconds
  (the only form in which the program reads them); the clock value `now`, likewise in Unix
  seconds, and the facts captured at a call site (caller position, time stamp, message text)
  are arguments.
-/

namespace SimpleLog

/-! ## Data model -/

/-- The record type `stLogUnit` of the source. -/
structure stLogUnit where
  FileName : String
  FuncName : String
  Line : Int
  Level : Int
  LogStr : String
  AddTime : String
deriving DecidableEq, Repr

/-- Dynamic value stored in an element of `container/list` (an `interface{}`): a record held by
value, or a pointer to a record.  `dequeue` asserts the first dynamic type. -/
inductive Any where
  | unitVal (u : stLogUnit)
  | unitPtr (u : stLogUnit)
deriving DecidableEq, Repr

/-- Ways in which the Go program can stop abnormally, plus the exhaustion of the fuel that bounds
the loops of the embedding (`fuelExhausted` is never produced by the Go program itself). -/
inductive Fault where
  | nilDereference
  | typeAssertion
  | indexOutOfRange
  | fuelExhausted
deriving DecidableEq, Repr

/-- The wake channel `rouse_`: either the nil channel of a zero-valued `Logger`, or the channel
built by `make(chan int)`, which has capacity zero and therefore never stores a value. -/
inductive Chan where
  | nilChan
  | unbuffered
deriving DecidableEq, Repr

/-- The `Logger` struct.  `logList_` is a pointer to a list: `none` is the nil pointer.  The
mutex carries no data and is not represented. -/
structure Logger where
  level_ : Int
  type_ : Int
  filename_ : String
  logList_ : Option (List Any)
  stop_ : Bool
  rouse_ : Chan
deriving DecidableEq, Repr

def LOG_LEVEL_DEBUG : Int := 0
def LOG_LEVEL_INFO : Int := 1
def LOG_LEVEL_WARNING : Int := 2
def LOG_LEVEL_ERROR : Int := 3
def LOG_LEVEL_NONE : Int := 4

def LOG_TYPE_NONE : Int := 0
def LOG_TYPE_STDOUT : Int := 1
def LOG_TYPE_FILE : Int := 2

def LOG_BUFFER_MAXSIZE : Nat := 4096
def LOG_FILE_MAXSIZE : Nat := 300 * 1024 * 1024
def LOG_SAVE_MAXSIZE : Int := 7

def sLogLevelstr : List String := ["DEBUG", "INFO", "WARNING", "ERROR"]
def sLogPrintColor : List Int := [38, 36, 33, 31]

/-- The initial value of the package variable `slogger`: `&Logger{type_: LOG_TYPE_STDOUT}`; every
other field has its zero value, so the list pointer and the channel are nil. -/
def sloggerInit : Logger :=
  { level_ := 0, type_ := LOG_TYPE_STDOUT, filename_ := "", logList_ := none,
    stop_ := false, rouse_ := Chan.nilChan }

/-- Array indexing `a[i]` with Go's bounds check. -/
def index {α : Type} (a : List α) (i : Int) : Except Fault α :=
  if i < 0 then Except.error Fault.indexOutOfRange
  else
    match a.get? i.toNat with
    | some x => Except.ok x
    | none => Except.error Fault.indexOutOfRange

/-! ## Queue -/

/-- The method `dequeue`.  `l.logList_.Len()` dereferences the list pointer; the front value is
asserted to hold a `stLogUnit` by value before the element is removed.  The result `none`
stands for `(nil, false)` and `some u` for `(&u, true)`. -/
def dequeue (l : Logger) : Except Fault (Option stLogUnit × Logger) :=
  match l.logList_ with
  | none => Except.error Fault.nilDereference
  | some [] => Except.ok (none, l)
  | some (Any.unitVal unit :: rest) => Except.ok (some unit, { l with logList_ := some rest })
  | some (Any.unitPtr _ :: _) => Except.error Fault.typeAssertion

/-- The method `enqueue` as seen by the calling goroutine: `PushBack(*unit)` stores the record by
value at the back of the list (and dereferences the list pointer); the non-blocking send on
`rouse_` that follows changes no field of the `Logger`, since the channel has no buffer.  Its
effect on a writer blocked in `select` is part of `Sys.step` below. -/
def enqueue (l : Logger) (unit : stLogUnit) : Except Fault Logger :=
  match l.logList_ with
  | none => Except.error Fault.nilDereference
  | some q => Except.ok { l with logList_ := some (q ++ [Any.unitVal unit]) }

/-- Consecutive calls of `enqueue`, one per record, in the order of the list. -/
def enqueueAll : Logger → List stLogUnit → Except Fault Logger
  | l, [] => Except.ok l
  | l, r :: rs =>
    match enqueue l r with
    | Except.error e => Except.error e
    | Except.ok l1 => enqueueAll l1 rs

/-- The results of `n` consecutive calls of `dequeue`, with the final state. -/
def dequeueN : Nat → Logger → Except Fault (List (Option stLogUnit) × Logger)
  | 0, l => Except.ok ([], l)
  | n + 1, l =>
    match dequeue l with
    | Except.error e => Except.error e
    | Except.ok (r, l1) =>
      match dequeueN n l1 with
      | Except.error e => Except.error e
      | Except.ok (rs, l2) => Except.ok (r :: rs, l2)

/-! ## Formatting -/

/-- The file line `fmt.Sprintf("[%s] [%s] %s(%d), %s: %s\n", unit.AddTime,
sLogLevelstr[unit.Level], unit.FileName, unit.Line, unit.FuncName, unit.LogStr)`. -/
def sprintfFileLine (unit : stLogUnit) : Except Fault String :=
  match index sLogLevelstr unit.Level with
  | Except.error e => Except.error e
  | Except.ok lv =>
    Except.ok ("[" ++ unit.AddTime ++ "] [" ++ lv ++ "] " ++ unit.FileName ++ "("
      ++ toString unit.Line ++ "), " ++ unit.FuncName ++ ": " ++ unit.LogStr ++ "\n")

/-- The terminal line `fmt.Printf("%c[%dm[%s] [%s] %s(%d), %s: %s%c[0m\n", 0x1B,
sLogPrintColor[unit.Level], ..., 0x1B)`. -/
def sprintfStdoutLine (unit : stLogUnit) : Except Fault String :=
  match index sLogPrintColor unit.Level with
  | Except.error e => Except.error e
  | Except.ok color =>
    match index sLogLevelstr unit.Level with
    | Except.error e => Except.error e
    | Except.ok lv =>
      Except.ok ("\x1b[" ++ toString color ++ "m[" ++ unit.AddTime ++ "] [" ++ lv ++ "] "
        ++ unit.FileName ++ "(" ++ toString unit.Line ++ "), " ++ unit.FuncName ++ ": "
        ++ unit.LogStr ++ "\x1b[0m\n")

/-! ## Dispatcher -/

/-- What an emission call captures from its environment: the caller position returned by
`getFilenameAndLine`, the time stamp built from `time.Now()` and the text `fmt.Sprint(args...)`. -/
structure CallSite where
  FileName : String
  FuncName : String
  Line : Int
  AddTime : String
  LogStr : String
deriving DecidableEq, Repr

/-- The method `formatWriteLogMsg`; `out` is the sequence of `Printf` outputs so far. -/
def formatWriteLogMsg (l : Logger) (out : List String) (unit : stLogUnit) :
    Except Fault (Logger × List String) :=
  let printed : Except Fault (List String) :=
    if Int.land l.type_ LOG_TYPE_STDOUT > 0 then
      match sprintfStdoutLine unit with
      | Except.error e => Except.error e
      | Except.ok s => Except.ok (out ++ [s])
    else Except.ok out
  match printed with
  | Except.error e => Except.error e
  | Except.ok out1 =>
    if Int.land l.type_ LOG_TYPE_FILE > 0 then
      match enqueue l unit with
      | Except.error e => Except.error e
      | Except.ok l1 => Except.ok (l1, out1)
    else Except.ok (l, out1)

/-- The common body of `LOGD`, `LOGI`, `LOGW` and `LOGE`, which differ only in the level
constant: the threshold test, the construction of the record and the hand-over. -/
def logAt (level : Int) (l : Logger) (out : List String) (c : CallSite) :
    Except Fault (Logger × List String) :=
  if l.level_ ≤ level then
    formatWriteLogMsg l out
      { FileName := c.FileName, FuncName := c.FuncName, Line := c.Line, Level := level,
        LogStr := c.LogStr, AddTime := c.AddTime }
  else Except.ok (l, out)

def LOGD (l : Logger) (out : List String) (c : CallSite) : Except Fault (Logger × List String) :=
  logAt LOG_LEVEL_DEBUG l out c

def LOGI (l : Logger) (out : List String) (c : CallSite) : Except Fault (Logger × List String) :=
  logAt LOG_LEVEL_INFO l out c

def LOGW (l : Logger) (out : List String) (c : CallSite) : Except Fault (Logger × List String) :=
  logAt LOG_LEVEL_WARNING l out c

def LOGE (l : Logger) (out : List String) (c : CallSite) : Except Fault (Logger × List String) :=
  logAt LOG_LEVEL_ERROR l out c

/-- The function `SetLogInfo`: the new value of `slogger`, and whether the goroutine `loggerWork`
was started. -/
def SetLogInfo (level ntype : Int) (filename : String) : Logger × Bool :=
  let l : Logger :=
    { level_ := level, type_ := ntype, stop_ := false, rouse_ := Chan.unbuffered,
      logList_ := some [], filename_ := filename }
  if Int.land l.type_ LOG_TYPE_FILE > 0 then (l, true)
  else ({ l with stop_ := true }, false)

/-! ## File system -/

/-- What a path names: a regular file with its content and its modification time in whole Unix
seconds (the value of `ModTime().Unix()`), or a directory. -/
inductive Node where
  | file (content : String) (mtime : Int)
  | dir
deriving DecidableEq, Repr

/-- The file system.  `node` maps a path to what it names (`none`: nothing there); `deny` marks
the paths on which `os.OpenFile` fails for a reason that the node map does not show (permission
bits, a missing parent directory); `writes` counts the write system calls issued so far. -/
structure Disk where
  node : String → Option Node
  deny : String → Bool
  writes : Nat

/-- The part of `os.FileInfo` that the program reads. -/
structure FileInfo where
  Size : Nat
  ModTimeUnix : Int
deriving DecidableEq, Repr

/-- The error value of a failed file-system call. -/
inductive OsError where
  | pathError
deriving DecidableEq, Repr

/-- The method `isFile`: `os.Stat` fails when nothing is at the path (with an error for which
`os.IsExist` is false), and a directory is rejected; `none` stands for `(false, nil)`. -/
def isFile (d : Disk) (filename : String) : Option FileInfo :=
  match d.node filename with
  | none => none
  | some Node.dir => none
  | some (Node.file content mtime) =>
    some { Size := content.utf8ByteSize, ModTimeUnix := mtime }

/-- The method `getFileByteSize`. -/
def getFileByteSize (d : Disk) (filename : String) : Bool × Nat :=
  match isFile d filename with
  | none => (false, 0)
  | some fhandler => (true, fhandler.Size)

/-- The call `os.Rename(oldpath, newpath)` for a regular file at `oldpath`; the error value is
discarded by both call sites.  The call fails, changing nothing, when `oldpath` names no file,
when `newpath` is the empty path, and when `newpath` names a directory.  Otherwise the file
(content and modification time) moves to `newpath`, replacing a file that was there.  Renaming a
directory does not occur in the program and is treated as a failure. -/
def Rename (d : Disk) (oldpath newpath : String) : Disk :=
  match d.node oldpath with
  | some (Node.file content mtime) =>
    if newpath = "" then d
    else
      match d.node newpath with
      | some Node.dir => d
      | _ =>
        { d with node := fun p =>
            if p = newpath then some (Node.file content mtime)
            else if p = oldpath then none
            else d.node p }
  | _ => d

/-- The call `os.OpenFile(filename, os.O_WRONLY|os.O_CREATE|os.O_APPEND, 0644)` at time `now`:
it fails on a denied path and on a directory, and creates an empty file when nothing is there. -/
def OpenFile (d : Disk) (now : Int) (filename : String) : Except OsError Disk :=
  if d.deny filename then Except.error OsError.pathError
  else
    match d.node filename with
    | some Node.dir => Except.error OsError.pathError
    | some (Node.file _ _) => Except.ok d
    | none =>
      Except.ok { d with node := fun p => if p = filename then some (Node.file "" now) else d.node p }

/-- A successful `bf.WriteTo(f)` on a file opened for appending: one write call that appends the
whole buffer content and stamps the file with `now`. -/
def WriteTo (d : Disk) (now : Int) (filename : String) (data : String) : Disk :=
  match d.node filename with
  | some (Node.file content _) =>
    { d with
      node := fun p => if p = filename then some (Node.file (content ++ data) now) else d.node p
      writes := d.writes + 1 }
  | _ => d

/-- The method `writeFile`: the disk afterwards, the buffer content afterwards and the returned
error.  A successful `WriteTo` empties the buffer; `f.Close()` succeeds. -/
def writeFile (d : Disk) (now : Int) (filename : String) (bf : String) :
    Disk × String × Option OsError :=
  if bf.utf8ByteSize = 0 then (d, bf, none)
  else
    match OpenFile d now filename with
    | Except.error err => (d, bf, some err)
    | Except.ok d1 => (WriteTo d1 now filename bf, "", none)

/-- The content of the regular file at a path, empty when there is none. -/
def fileContent (d : Disk) (filename : String) : String :=
  match d.node filename with
  | some (Node.file content _) => content
  | _ => ""

/-- Whether `os.OpenFile` succeeds on the path. -/
def canOpen (d : Disk) (filename : String) : Bool :=
  !d.deny filename && d.node filename != some Node.dir

/-! ## Rotation -/

/-- The scan of `path.Ext` from the last character towards the first: it stops with the empty
result at a slash and returns the text from the last dot on.  The first argument is the part of
the path not yet visited, reversed; the second is the text already passed. -/
def extScan : List Char → List Char → List Char
  | [], _ => []
  | c :: rest, acc =>
    if c = '/' then []
    else if c = '.' then '.' :: acc
    else extScan rest (c :: acc)

/-- The function `path.Ext`. -/
def Ext (path : String) : String :=
  String.mk (extScan path.data.reverse [])

/-- The function `strings.TrimSuffix`. -/
def TrimSuffix (s suffix : String) : String :=
  if suffix.data.isSuffixOf s.data then String.mk (s.data.take (s.data.length - suffix.data.length))
  else s

/-- The archive name `fmt.Sprintf("%s.%d%s", stem, i, suffix)`; `stem` is the variable that the
source calls prefix, and the loop counter `i` is never negative. -/
def slotName (stem : String) (i : Nat) (suffix : String) : String :=
  stem ++ "." ++ toString i ++ suffix

/-- The loop of `reuseFile` with `k` iterations left, the counter at `i` and the current values
of `oldest` and `newpath`; leaving the loop leads to the final `os.Rename(filename, newpath)`. -/
def reuseScan (d : Disk) (filename stem suffix : String) : Nat → Nat → Int → String → Disk
  | 0, _, _, newpath => Rename d filename newpath
  | k + 1, i, oldest, newpath =>
    match isFile d (slotName stem i suffix) with
    | none => Rename d filename (slotName stem i suffix)
    | some fhandler =>
      if oldest > fhandler.ModTimeUnix then
        reuseScan d filename stem suffix k (i + 1) fhandler.ModTimeUnix (slotName stem i suffix)
      else reuseScan d filename stem suffix k (i + 1) oldest newpath

/-- The method `reuseFile`, called at Unix time `now`: the counter runs from 1 to `maxsize`. -/
def reuseFile (d : Disk) (now : Int) (filename : String) (maxsize : Int) : Disk :=
  reuseScan d filename (TrimSuffix filename (Ext filename)) (Ext filename) maxsize.toNat 1 now ""

/-! ## Synchronous drain and background writer -/

/-- The number of records in the queue (zero for the nil list pointer). -/
def queueLen (l : Logger) : Nat :=
  match l.logList_ with
  | none => 0
  | some q => q.length

/-- The loop of `SyncToFile` with the local buffer `bf`, bounded by `fuel` iterations. -/
def syncLoop (d : Disk) (now : Int) : Nat → Logger → String → Except Fault (Logger × Disk)
  | 0, _, _ => Except.error Fault.fuelExhausted
  | fuel + 1, l, bf =>
    match dequeue l with
    | Except.error e => Except.error e
    | Except.ok (some unit, l1) =>
      match sprintfFileLine unit with
      | Except.error e => Except.error e
      | Except.ok line => syncLoop d now fuel l1 (bf ++ line)
    | Except.ok (none, l1) =>
      if bf.utf8ByteSize > 0 then Except.ok (l1, (writeFile d now l1.filename_ bf).1)
      else Except.ok (l1, d)

/-- The function `SyncToFile`: every iteration but the last removes a record, so one more
iteration than there are records is enough. -/
def SyncToFile (l : Logger) (d : Disk) (now : Int) : Except Fault (Logger × Disk) :=
  syncLoop d now (queueLen l + 1) l ""

/-- The inner loop of the wake branch of `loggerWork`, bounded by `fuel` iterations: dequeue,
append the line to the buffer, flush when the buffer is longer than `LOG_BUFFER_MAXSIZE`. -/
def wakeLoop (now : Int) : Nat → Logger → Disk → String → Except Fault (Logger × Disk × String)
  | 0, _, _, _ => Except.error Fault.fuelExhausted
  | fuel + 1, l, d, bf =>
    match dequeue l with
    | Except.error e => Except.error e
    | Except.ok (none, l1) => Except.ok (l1, d, bf)
    | Except.ok (some unit, l1) =>
      match sprintfFileLine unit with
      | Except.error e => Except.error e
      | Except.ok line =>
        if (bf ++ line).utf8ByteSize > LOG_BUFFER_MAXSIZE then
          wakeLoop now fuel l1 (writeFile d now l1.filename_ (bf ++ line)).1
            (writeFile d now l1.filename_ (bf ++ line)).2.1
        else wakeLoop now fuel l1 d (bf ++ line)

/-- One pass of the wake branch of `loggerWork`. -/
def wakeBranch (now : Int) (l : Logger) (d : Disk) (bf : String) :
    Except Fault (Logger × Disk × String) :=
  wakeLoop now (queueLen l + 1) l d bf

/-- The timer branch of `loggerWork`: rotation check, then flush; the disk and the buffer
afterwards. -/
def timerBranch (now : Int) (l : Logger) (d : Disk) (bf : String) : Disk × String :=
  let d1 :=
    if (getFileByteSize d l.filename_).1 && decide ((getFileByteSize d l.filename_).2 > LOG_FILE_MAXSIZE)
    then reuseFile d now l.filename_ LOG_SAVE_MAXSIZE
    else d
  ((writeFile d1 now l.filename_ bf).1, (writeFile d1 now l.filename_ bf).2.1)

/-! ## Producers and the writer goroutine

The interleavings of producer goroutines with the goroutine `loggerWork`, at the grain of the
synchronising operations of the source: the critical section of `enqueue`, its non-blocking
send, the `select` of the writer and the calls of `dequeue` in the wake branch. -/

/-- Where the writer goroutine is. -/
inductive WriterPc where
  /-- Running outside `select` and outside the wake branch: start-up (`createDir`), or on its way
  back to the `select` after a pass. -/
  | running
  /-- Blocked in the `select` on `rouse_` and the ticker. -/
  | selecting
  /-- Inside the inner loop of the wake branch. -/
  | draining
  /-- Left the outer loop because `stop_` was set. -/
  | stopped
deriving DecidableEq, Repr

/-- The state of the concurrent system: the shared logger, the position of the writer, the
number of producers that have left the critical section of `enqueue` and not yet tried the
send, and the records that the writer has dequeued so far. -/
structure Sys where
  slogger : Logger
  writer : WriterPc
  sending : Nat
  drained : List stLogUnit
deriving DecidableEq, Repr

/-- The atomic actions. -/
inductive Event where
  /-- A producer runs the critical section of `enqueue` (lock, `PushBack`, unlock). -/
  | push (unit : stLogUnit)
  /-- A producer runs the `select` of `enqueue`: the send goes through if the writer is blocked
  in its own `select`, and the default case is taken otherwise. -/
  | send
  /-- The writer reaches its `select` and blocks. -/
  | block
  /-- The ticker fires while the writer is blocked: the timer branch runs (it does not touch
  the queue). -/
  | tick
  /-- The writer, in the wake branch, calls `dequeue`. -/
  | take
deriving DecidableEq, Repr

/-- Where the writer goes after its `select` returned: the test of `stop_`, then the branch. -/
def afterSelect (l : Logger) (ok : Bool) : WriterPc :=
  if l.stop_ then WriterPc.stopped
  else if ok then WriterPc.draining
  else WriterPc.running

/-- One atomic action; `none` when the action is not enabled in the state (or panics). -/
def Sys.step (s : Sys) : Event → Option Sys
  | Event.push unit =>
    match enqueue s.slogger unit with
    | Except.error _ => none
    | Except.ok l1 => some { s with slogger := l1, sending := s.sending + 1 }
  | Event.send =>
    if s.sending = 0 then none
    else if s.slogger.rouse_ = Chan.unbuffered ∧ s.writer = WriterPc.selecting then
      some { s with sending := s.sending - 1, writer := afterSelect s.slogger true }
    else some { s with sending := s.sending - 1 }
  | Event.block =>
    if s.writer = WriterPc.running then some { s with writer := WriterPc.selecting } else none
  | Event.tick =>
    if s.writer = WriterPc.selecting then some { s with writer := afterSelect s.slogger false }
    else none
  | Event.take =>
    if s.writer = WriterPc.draining then
      match dequeue s.slogger with
      | Except.error _ => none
      | Except.ok (some unit, l1) => some { s with slogger := l1, drained := s.drained ++ [unit] }
      | Except.ok (none, l1) => some { s with slogger := l1, writer := WriterPc.running }
    else none

/-- A sequence of atomic actions. -/
def Sys.run : Sys → List Event → Option Sys
  | s, [] => some s
  | s, e :: es =>
    match s.step e with
    | none => none
    | some s1 => Sys.run s1 es

/-- The system right after `SetLogInfo(level, ntype, filename)` with the file sink: the writer
goroutine has been started and has not reached its `select` yet. -/
def Sys.start (level ntype : Int) (filename : String) : Sys :=
  { slogger := (SetLogInfo level ntype filename).1, writer := WriterPc.running, sending := 0,
    drained := [] }

/-- The actions of `n` timer periods of an idle writer: the ticker fires, the timer branch runs,
the writer blocks in `select` again. -/
def idleTicks : Nat → List Event
  | 0 => []
  | n + 1 => Event.tick :: Event.block :: idleTicks n

/-! ## The public interface, called from one goroutine -/

/-- A call of the public interface with the values it takes from its environment. -/
inductive Call where
  | setLogInfo (level ntype : Int) (filename : String)
  | logd (c : CallSite)
  | logi (c : CallSite)
  | logw (c : CallSite)
  | loge (c : CallSite)
  | syncToFile (now : Int)

/-- The state that the public interface acts on: the package variable `slogger`, what has been
printed to standard output and the disk. -/
structure World where
  slogger : Logger
  out : List String
  disk : Disk

/-- The state of a fresh process. -/
def World.init (d : Disk) : World :=
  { slogger := sloggerInit, out := [], disk := d }

/-- The state after an emission call. -/
def World.emitted (w : World) (r : Except Fault (Logger × List String)) : Except Fault World :=
  match r with
  | Except.error e => Except.error e
  | Except.ok (l, out) => Except.ok { w with slogger := l, out := out }

/-- One call of the public interface. -/
def World.call (w : World) : Call → Except Fault World
  | Call.setLogInfo level ntype filename =>
    Except.ok { w with slogger := (SetLogInfo level ntype filename).1 }
  | Call.logd c => w.emitted (LOGD w.slogger w.out c)
  | Call.logi c => w.emitted (LOGI w.slogger w.out c)
  | Call.logw c => w.emitted (LOGW w.slogger w.out c)
  | Call.loge c => w.emitted (LOGE w.slogger w.out c)
  | Call.syncToFile now =>
    match SyncToFile w.slogger w.disk now with
    | Except.error e => Except.error e
    | Except.ok (l, d) => Except.ok { w with slogger := l, disk := d }

/-- A sequence of calls of the public interface. -/
def World.run : World → List Call → Except Fault World
  | w, [] => Except.ok w
  | w, c :: cs =>
    match w.call c with
    | Except.error e => Except.error e
    | Except.ok w1 => World.run w1 cs

/-! ## The on-disk format as the specification words it -/

/-- The level word of a line: DEBUG, INFO, WARNING or ERROR for the levels 0 to 3. -/
def levelWord (level : Int) : String :=
  if level = 0 then "DEBUG"
  else if level = 1 then "INFO"
  else if level = 2 then "WARNING"
  else "ERROR"

/-- The line `[<AddTime>] [<LEVEL>] <FileName>(<Line>), <FuncName>: <LogStr>` with its newline. -/
def specLine (r : stLogUnit) : String :=
  "[" ++ r.AddTime ++ "] [" ++ levelWord r.Level ++ "] " ++ r.FileName ++ "(" ++ toString r.Line
    ++ "), " ++ r.FuncName ++ ": " ++ r.LogStr ++ "\n"

/-- The lines of a sequence of records, one after the other. -/
def specLines : List stLogUnit → String
  | [] => ""
  | r :: rs => specLine r ++ specLines rs

/-- The colour code of a terminal line: 38, 36, 33 or 31 for the levels 0 to 3. -/
def levelColor (level : Int) : Int :=
  if level = 0 then 38
  else if level = 1 then 36
  else if level = 2 then 33
  else 31

/-- The terminal line of a record: the escape sequence `ESC[<colour>m` chosen by the level, the
fields laid out as in the file line, the reset sequence `ESC[0m` and the newline. -/
def specStdoutLine (r : stLogUnit) : String :=
  "\x1b[" ++ toString (levelColor r.Level) ++ "m" ++ "[" ++ r.AddTime ++ "] ["
    ++ levelWord r.Level ++ "] " ++ r.FileName ++ "(" ++ toString r.Line ++ "), " ++ r.FuncName
    ++ ": " ++ r.LogStr ++ "\x1b[0m" ++ "\n"

/-- The disk on which the timer branch of `loggerWork` flushes: the disk after its rotation
check, which renames the active file when it is longer than `LOG_FILE_MAXSIZE`. -/
def rotationCheck (now : Int) (l : Logger) (d : Disk) : Disk :=
  if (getFileByteSize d l.filename_).1 && decide ((getFileByteSize d l.filename_).2 > LOG_FILE_MAXSIZE)
  then reuseFile d now l.filename_ LOG_SAVE_MAXSIZE
  else d

/-- The levels that the emission calls produce. -/
def levelOk (r : stLogUnit) : Prop :=
  0 ≤ r.Level ∧ r.Level ≤ 3

/-- A logger whose list pointer is set and whose queue holds records by value, with the levels
that the emission calls produce. -/
def Ready (l : Logger) : Prop :=
  ∃ rs : List stLogUnit, l.logList_ = some (rs.map Any.unitVal) ∧ ∀ r ∈ rs, levelOk r

/-! ## Sample states -/

/-- The disk that holds exactly the listed nodes, on which every open is allowed and no write
has been issued yet. -/
def diskOf (nodes : List (String × Node)) : Disk :=
  { node := fun p => (nodes.find? (fun e => decide (e.1 = p))).map Prod.snd
    deny := fun _ => false
    writes := 0 }

/-- The disk that holds exactly the listed nodes and on which every open is refused. -/
def lockedDiskOf (nodes : List (String × Node)) : Disk :=
  { node := fun p => (nodes.find? (fun e => decide (e.1 = p))).map Prod.snd
    deny := fun _ => true
    writes := 0 }

/-- Two records as the emission calls build them. -/
def sampleUnits : List stLogUnit :=
  [ { FileName := "main.go", FuncName := "main", Line := 10, Level := 1, LogStr := "start",
      AddTime := "2024-01-01 00:00:00 000" },
    { FileName := "main.go", FuncName := "run", Line := 27, Level := 3, LogStr := "failed",
      AddTime := "2024-01-01 00:00:01 250" } ]

/-- A logger configured for the file sink with the two sample records in its queue. -/
def sampleLogger : Logger :=
  { level_ := 0, type_ := 2, filename_ := "app.log",
    logList_ := some (sampleUnits.map Any.unitVal), stop_ := false, rouse_ := Chan.unbuffered }

/-- An active file with four archives whose modification times are 5, 2, 8 and 2. -/
def fullDisk : Disk :=
  diskOf [("a.log", Node.file "new" 9), ("a.1.log", Node.file "s1" 5),
    ("a.2.log", Node.file "s2" 2), ("a.3.log", Node.file "s3" 8), ("a.4.log", Node.file "s4" 2)]

/-- The modification times of the archives of `fullDisk`, by slot number. -/
def fullDiskTimes (t : Nat) : Int :=
  if t = 1 then 5 else if t = 2 then 2 else if t = 3 then 8 else 2

/-- An active file with one archive, in slot 1. -/
def oneArchiveDisk : Disk :=
  diskOf [("a.log", Node.file "new" 9), ("a.1.log", Node.file "s1" 5)]

/-- An active file next to a directory that has the name of slot 1. -/
def dirSlotDisk : Disk :=
  diskOf [("a.log", Node.file "new" 9), ("a.1.log", Node.dir)]

/-- An active file with one archive whose modification time is the second 10. -/
def freshArchiveDisk : Disk :=
  diskOf [("a.log", Node.file "new" 9), ("a.1.log", Node.file "old" 10)]

/-! ## Queue: first in, first out -/

theorem enqueueAll_some (l : Logger) (q : List Any) (h : l.logList_ = some q)
    (rs : List stLogUnit) :
    enqueueAll l rs = Except.ok { l with logList_ := some (q ++ rs.map Any.unitVal) } := by
  induction rs generalizing l q with
  | nil =>
    cases l
    simp_all [enqueueAll]
  | cons r rs ih =>
    have h1 : enqueue l r = Except.ok { l with logList_ := some (q ++ [Any.unitVal r]) } := by
      simp [enqueue, h]
    simp only [enqueueAll, h1]
    rw [ih _ (q ++ [Any.unitVal r]) rfl]
    simp

theorem dequeueN_values (l : Logger) (rs : List stLogUnit) (rest : List Any)
    (h : l.logList_ = some (rs.map Any.unitVal ++ rest)) :
    dequeueN rs.length l = Except.ok (rs.map some, { l with logList_ := some rest }) := by
  induction rs generalizing l with
  | nil =>
    cases l
    simp_all [dequeueN]
  | cons r rs ih =>
    have h1 : dequeue l = Except.ok (some r, { l with logList_ := some (rs.map Any.unitVal ++ rest) }) := by
      simp [dequeue, h]
    simp only [List.length_cons, dequeueN, h1]
    rw [ih _ rfl]
    simp

/-- C1: on a logger whose queue is empty, enqueuing `r1..rN` and then calling `dequeue` N times
returns `(r1, true), ..., (rN, true)`, every record equal to the one enqueued and in the order
of the enqueues; call N+1 returns the empty sentinel `(nil, false)` and leaves the queue
empty. -/
theorem queue_fifo (l : Logger) (h : l.logList_ = some []) (rs : List stLogUnit) :
    ∃ l1 l2, enqueueAll l rs = Except.ok l1 ∧
      dequeueN rs.length l1 = Except.ok (rs.map some, l2) ∧
      dequeue l2 = Except.ok (none, l2) ∧ l2.logList_ = some [] := by
  refine ⟨_, _, enqueueAll_some l [] h rs, dequeueN_values _ rs [] (by simp), ?_, rfl⟩
  simp [dequeue]

theorem queue_fifo_witness :
    ∃ l1 l2, enqueueAll (SetLogInfo 0 2 "app.log").1
        [⟨"m.go", "main", 10, 1, "a", "t1"⟩, ⟨"m.go", "main", 11, 3, "b", "t2"⟩] = Except.ok l1 ∧
      dequeueN 2 l1 = Except.ok
        ([some ⟨"m.go", "main", 10, 1, "a", "t1"⟩, some ⟨"m.go", "main", 11, 3, "b", "t2"⟩], l2) ∧
      dequeue l2 = Except.ok (none, l2) ∧ l2.logList_ = some [] :=
  queue_fifo (SetLogInfo 0 2 "app.log").1 (by decide)
    [⟨"m.go", "main", 10, 1, "a", "t1"⟩, ⟨"m.go", "main", 11, 3, "b", "t2"⟩]

/-! ## Formatting and flushing -/

theorem sprintfFileLine_eq (r : stLogUnit) (h : levelOk r) :
    sprintfFileLine r = Except.ok (specLine r) := by
  obtain ⟨h0, h3⟩ := h
  have hc : r.Level = 0 ∨ r.Level = 1 ∨ r.Level = 2 ∨ r.Level = 3 := by omega
  rcases hc with hc | hc | hc | hc <;>
    simp [sprintfFileLine, specLine, levelWord, index, sLogLevelstr, hc]

theorem utf8ByteSize_eq_zero (s : String) : s.utf8ByteSize = 0 ↔ s = "" := by
  cases s with
  | mk cs =>
    rw [String.utf8ByteSize_mk, String.utf8Len_eq_zero]
    constructor
    · intro h
      rw [h]
    · intro h
      exact congrArg String.data h

theorem specLine_ne_empty (r : stLogUnit) : specLine r ≠ "" := by
  intro h
  have := congrArg String.length h
  simp [specLine, String.length_append] at this
  exact absurd this.2 (by decide)

theorem append_specLine_ne_empty (bf : String) (r : stLogUnit) (rest : String) :
    bf ++ (specLine r ++ rest) ≠ "" := by
  intro h
  have := congrArg String.length h
  simp [specLine, String.length_append] at this
  exact absurd this.2.1.2 (by decide)

theorem canOpen_iff (d : Disk) (f : String) :
    canOpen d f = true ↔ d.deny f = false ∧ d.node f ≠ some Node.dir := by
  simp [canOpen]

/-- A flush whose open succeeds: one write call appends the whole buffer to the file, empties
the buffer and touches no other path. -/
theorem writeFile_ok (d : Disk) (now : Int) (f bf : String) (hbf : bf ≠ "")
    (hopen : canOpen d f = true) :
    (writeFile d now f bf).2 = ("", none) ∧
      fileContent (writeFile d now f bf).1 f = fileContent d f ++ bf ∧
      (writeFile d now f bf).1.writes = d.writes + 1 ∧
      (∀ p, p ≠ f → (writeFile d now f bf).1.node p = d.node p) ∧
      canOpen (writeFile d now f bf).1 f = true := by
  have hsz : bf.utf8ByteSize ≠ 0 := fun h => hbf ((utf8ByteSize_eq_zero bf).1 h)
  obtain ⟨hdeny, hdir⟩ := (canOpen_iff d f).1 hopen
  cases hn : d.node f with
  | none =>
    simp [writeFile, hsz, OpenFile, hdeny, hn, WriteTo, fileContent, canOpen]
    intro p hp
    simp [hp]
  | some nd =>
    cases nd with
    | dir => exact absurd hn hdir
    | file content mtime =>
      simp [writeFile, hsz, OpenFile, hdeny, hn, WriteTo, fileContent, canOpen]
      intro p hp
      simp [hp]

/-- A flush whose open fails changes neither the disk nor the buffer and returns the error. -/
theorem writeFile_fail (d : Disk) (now : Int) (f bf : String) (hbf : bf ≠ "")
    (hopen : canOpen d f = false) :
    writeFile d now f bf = (d, bf, some OsError.pathError) := by
  have hsz : bf.utf8ByteSize ≠ 0 := fun h => hbf ((utf8ByteSize_eq_zero bf).1 h)
  have hcases : d.deny f = true ∨ d.node f = some Node.dir := by
    by_contra hcon
    push_neg at hcon
    have : canOpen d f = true := (canOpen_iff d f).2 ⟨by simpa using hcon.1, hcon.2⟩
    rw [hopen] at this
    exact Bool.false_ne_true this
  rcases hcases with h | h
  · simp [writeFile, hsz, OpenFile, h]
  · by_cases hd : d.deny f = true
    · simp [writeFile, hsz, OpenFile, hd]
    · simp [writeFile, hsz, OpenFile, hd, h]

theorem dequeue_cons (l : Logger) (r : stLogUnit) (rs : List stLogUnit)
    (h : l.logList_ = some ((r :: rs).map Any.unitVal)) :
    dequeue l = Except.ok (some r, { l with logList_ := some (rs.map Any.unitVal) }) := by
  simp [dequeue, h]

theorem dequeue_nil (l : Logger) (h : l.logList_ = some []) :
    dequeue l = Except.ok (none, l) := by
  simp [dequeue, h]

theorem syncLoop_eq (d : Disk) (now : Int) (rs : List stLogUnit) :
    ∀ (fuel : Nat) (l : Logger) (bf : String),
      l.logList_ = some (rs.map Any.unitVal) → (∀ r ∈ rs, levelOk r) → rs.length < fuel →
      syncLoop d now fuel l bf =
        if (bf ++ specLines rs).utf8ByteSize > 0 then
          Except.ok ({ l with logList_ := some [] },
            (writeFile d now l.filename_ (bf ++ specLines rs)).1)
        else Except.ok ({ l with logList_ := some [] }, d) := by
  induction rs with
  | nil =>
    intro fuel l bf hq _ hfuel
    obtain ⟨k, rfl⟩ : ∃ k, fuel = k + 1 := ⟨fuel - 1, by simp at hfuel; omega⟩
    have hl : ({ l with logList_ := some [] } : Logger) = l := by
      cases l
      simp_all
    simp only [syncLoop, dequeue_nil l hq, specLines, String.append_empty, hl]
  | cons r rs ih =>
    intro fuel l bf hq hlv hfuel
    obtain ⟨k, rfl⟩ : ∃ k, fuel = k + 1 := ⟨fuel - 1, by simp at hfuel; omega⟩
    have hr : levelOk r := hlv r (List.mem_cons_self r rs)
    simp only [syncLoop, dequeue_cons l r rs hq, sprintfFileLine_eq r hr]
    rw [ih k _ (bf ++ specLine r) rfl (fun x hx => hlv x (List.mem_cons_of_mem r hx))
      (by simp at hfuel; omega)]
    simp [specLines, String.append_assoc]

/-- C2: with records `r1..rK` of levels 0..3 in the queue and a target that can be opened,
`SyncToFile` returns with the queue empty; for K >= 1 it appends to the target exactly the K
lines `[<AddTime>] [<LEVEL>] <FileName>(<Line>), <FuncName>: <LogStr>` of `r1..rK`, in enqueue
order and each once, in a single write, touching no other path; for K = 0 the disk is left as
it was (no write, no file created or modified). -/
theorem SyncToFile_drains (l : Logger) (d : Disk) (now : Int) (rs : List stLogUnit)
    (hq : l.logList_ = some (rs.map Any.unitVal)) (hlv : ∀ r ∈ rs, levelOk r)
    (hopen : canOpen d l.filename_ = true) :
    ∃ d1, SyncToFile l d now = Except.ok ({ l with logList_ := some [] }, d1) ∧
      fileContent d1 l.filename_ = fileContent d l.filename_ ++ specLines rs ∧
      (∀ p, p ≠ l.filename_ → d1.node p = d.node p) ∧
      (rs ≠ [] → d1.writes = d.writes + 1) ∧
      (rs = [] → d1 = d) := by
  have hlen : queueLen l = rs.length := by simp [queueLen, hq]
  have hrun := syncLoop_eq d now rs (queueLen l + 1) l "" hq hlv (by omega)
  cases rs with
  | nil =>
    refine ⟨d, ?_, ?_, fun _ _ => rfl, fun h => absurd rfl h, fun _ => rfl⟩
    · have hz : ¬ ("" ++ specLines []).utf8ByteSize > 0 := by decide
      rw [SyncToFile, hrun, if_neg hz]
    · simp [specLines]
  | cons r rs =>
    have hne : "" ++ specLines (r :: rs) ≠ "" := append_specLine_ne_empty "" r (specLines rs)
    have hpos : ("" ++ specLines (r :: rs)).utf8ByteSize > 0 :=
      Nat.pos_of_ne_zero (fun h => hne ((utf8ByteSize_eq_zero _).1 h))
    obtain ⟨_, hcontent, hwrites, hframe, _⟩ :=
      writeFile_ok d now l.filename_ ("" ++ specLines (r :: rs)) hne hopen
    refine ⟨(writeFile d now l.filename_ ("" ++ specLines (r :: rs))).1, ?_, ?_, hframe,
      fun _ => hwrites, fun h => absurd h (List.cons_ne_nil r rs)⟩
    · rw [SyncToFile, hrun, if_pos hpos]
    · rw [hcontent]
      simp

theorem wakeLoop_spec (now : Int) (rs : List stLogUnit) :
    ∀ (fuel : Nat) (l : Logger) (d : Disk) (bf : String),
      l.logList_ = some (rs.map Any.unitVal) → (∀ r ∈ rs, levelOk r) → rs.length < fuel →
      canOpen d l.filename_ = true → bf.utf8ByteSize ≤ LOG_BUFFER_MAXSIZE →
      ∃ d1 bf1, wakeLoop now fuel l d bf = Except.ok ({ l with logList_ := some [] }, d1, bf1) ∧
        bf1.utf8ByteSize ≤ LOG_BUFFER_MAXSIZE ∧
        fileContent d1 l.filename_ ++ bf1 = fileContent d l.filename_ ++ bf ++ specLines rs ∧
        (∀ p, p ≠ l.filename_ → d1.node p = d.node p) := by
  induction rs with
  | nil =>
    intro fuel l d bf hq _ hfuel _ hbf
    obtain ⟨k, rfl⟩ : ∃ k, fuel = k + 1 := ⟨fuel - 1, by simp at hfuel; omega⟩
    have hl : ({ l with logList_ := some [] } : Logger) = l := by
      cases l
      simp_all
    refine ⟨d, bf, ?_, hbf, by simp [specLines], fun _ _ => rfl⟩
    simp only [wakeLoop, dequeue_nil l hq, hl]
  | cons r rs ih =>
    intro fuel l d bf hq hlv hfuel hopen hbf
    obtain ⟨k, rfl⟩ : ∃ k, fuel = k + 1 := ⟨fuel - 1, by simp at hfuel; omega⟩
    have hr : levelOk r := hlv r (List.mem_cons_self r rs)
    have hrest : ∀ x ∈ rs, levelOk x := fun x hx => hlv x (List.mem_cons_of_mem r hx)
    have hk : rs.length < k := by simp at hfuel; omega
    simp only [wakeLoop, dequeue_cons l r rs hq, sprintfFileLine_eq r hr]
    by_cases hbig : (bf ++ specLine r).utf8ByteSize > LOG_BUFFER_MAXSIZE
    · have hne : bf ++ specLine r ≠ "" := by
        have := append_specLine_ne_empty bf r ""
        simpa using this
      obtain ⟨hbuf, hcontent, _, hframe, hopen1⟩ :=
        writeFile_ok d now l.filename_ (bf ++ specLine r) hne hopen
      have hb1 : (writeFile d now l.filename_ (bf ++ specLine r)).2.1 = "" :=
        congrArg Prod.fst hbuf
      obtain ⟨d1, bf1, hrun, hle, hcat, hfr⟩ :=
        ih k { l with logList_ := some (rs.map Any.unitVal) }
          (writeFile d now l.filename_ (bf ++ specLine r)).1 "" rfl hrest hk hopen1
          (by decide)
      refine ⟨d1, bf1, ?_, hle, ?_, fun p hp => (hfr p hp).trans (hframe p hp)⟩
      · rw [if_pos hbig, hb1]
        exact hrun
      · rw [hcat]
        show fileContent (writeFile d now l.filename_ (bf ++ specLine r)).1 l.filename_ ++ ""
          ++ specLines rs = _
        rw [hcontent]
        simp [specLines, String.append_assoc]
    · obtain ⟨d1, bf1, hrun, hle, hcat, hfr⟩ :=
        ih k { l with logList_ := some (rs.map Any.unitVal) } d (bf ++ specLine r) rfl hrest hk
          hopen (Nat.le_of_not_gt hbig)
      refine ⟨d1, bf1, ?_, hle, ?_, hfr⟩
      · rw [if_neg hbig]
        exact hrun
      · rw [hcat]
        simp [specLines, String.append_assoc]

/-- C9: one pass of the wake branch, started with records `r1..rN` (levels 0..3) in the queue,
a buffer of at most 4096 bytes and a target that can be opened, ends with the queue empty and a
buffer of at most 4096 bytes; the file content followed by the buffer content is the prior file
content, then the prior buffer content, then the lines of `r1..rN` in dequeue order; no other
path changes. -/
theorem wakeBranch_bounded_lossless (now : Int) (l : Logger) (d : Disk) (bf : String)
    (rs : List stLogUnit) (hq : l.logList_ = some (rs.map Any.unitVal))
    (hlv : ∀ r ∈ rs, levelOk r) (hopen : canOpen d l.filename_ = true)
    (hbf : bf.utf8ByteSize ≤ 4096) :
    ∃ d1 bf1, wakeBranch now l d bf = Except.ok ({ l with logList_ := some [] }, d1, bf1) ∧
      bf1.utf8ByteSize ≤ 4096 ∧
      fileContent d1 l.filename_ ++ bf1 = fileContent d l.filename_ ++ bf ++ specLines rs ∧
      (∀ p, p ≠ l.filename_ → d1.node p = d.node p) := by
  have hlen : queueLen l = rs.length := by simp [queueLen, hq]
  exact wakeLoop_spec now rs (queueLen l + 1) l d bf hq hlv (by omega) hopen hbf

/-- The flush of the wake branch happens right after the append that makes the buffer longer
than 4096 bytes: the first iteration on such a buffer continues with an empty buffer and the
whole content on disk. -/
theorem wakeLoop_flushes_at_once (now : Int) (fuel : Nat) (l : Logger) (d : Disk) (bf : String)
    (r : stLogUnit) (rs : List stLogUnit) (hq : l.logList_ = some ((r :: rs).map Any.unitVal))
    (hr : levelOk r) (hopen : canOpen d l.filename_ = true)
    (hbig : (bf ++ specLine r).utf8ByteSize > 4096) :
    wakeLoop now (fuel + 1) l d bf =
      wakeLoop now fuel { l with logList_ := some (rs.map Any.unitVal) }
        (writeFile d now l.filename_ (bf ++ specLine r)).1 "" ∧
    fileContent (writeFile d now l.filename_ (bf ++ specLine r)).1 l.filename_ =
      fileContent d l.filename_ ++ (bf ++ specLine r) := by
  have hne : bf ++ specLine r ≠ "" := by
    have := append_specLine_ne_empty bf r ""
    simpa using this
  obtain ⟨hbuf, hcontent, _, _, _⟩ := writeFile_ok d now l.filename_ (bf ++ specLine r) hne hopen
  have hb1 : (writeFile d now l.filename_ (bf ++ specLine r)).2.1 = "" := congrArg Prod.fst hbuf
  refine ⟨?_, hcontent⟩
  simp only [wakeLoop, dequeue_cons l r rs hq, sprintfFileLine_eq r hr]
  have hbig1 : (bf ++ specLine r).utf8ByteSize > LOG_BUFFER_MAXSIZE := hbig
  rw [if_pos hbig1, hb1]

/-! ## Sink bits -/

theorem nat_land_two_pow (n i : Nat) : n &&& 2 ^ i = if n.testBit i then 2 ^ i else 0 := by
  apply Nat.eq_of_testBit_eq
  intro j
  rw [Nat.testBit_and, Nat.testBit_two_pow]
  by_cases hij : i = j
  · subst hij
    cases h : n.testBit i <;> simp [Nat.testBit_two_pow]
  · cases h : n.testBit i <;> simp [Nat.testBit_two_pow, hij]

theorem nat_ldiff_two_pow (n i : Nat) :
    Nat.ldiff (2 ^ i) n = if n.testBit i then 0 else 2 ^ i := by
  apply Nat.eq_of_testBit_eq
  intro j
  rw [Nat.testBit_ldiff, Nat.testBit_two_pow]
  by_cases hij : i = j
  · subst hij
    cases h : n.testBit i <;> simp [Nat.testBit_two_pow]
  · cases h : n.testBit i <;> simp [Nat.testBit_two_pow, hij]

theorem land_two_pow_pos (k : Int) (i : Nat) :
    Int.land k ((2 ^ i : Nat) : Int) > 0 ↔ k.testBit i = true := by
  cases k with
  | ofNat n =>
    show (((n &&& 2 ^ i : Nat)) : Int) > 0 ↔ n.testBit i = true
    rw [nat_land_two_pow]
    cases h : n.testBit i <;> simp
  | negSucc n =>
    show ((Nat.ldiff (2 ^ i) n : Nat) : Int) > 0 ↔ (!n.testBit i) = true
    rw [nat_ldiff_two_pow]
    cases h : n.testBit i <;> simp

theorem stdout_bit (k : Int) : Int.land k LOG_TYPE_STDOUT > 0 ↔ k.testBit 0 = true :=
  land_two_pow_pos k 0

theorem file_bit (k : Int) : Int.land k LOG_TYPE_FILE > 0 ↔ k.testBit 1 = true :=
  land_two_pow_pos k 1

theorem sprintfStdoutLine_eq (u : stLogUnit) (h : levelOk u) :
    sprintfStdoutLine u = Except.ok (specStdoutLine u) := by
  obtain ⟨h0, h3⟩ := h
  have hc : u.Level = 0 ∨ u.Level = 1 ∨ u.Level = 2 ∨ u.Level = 3 := by omega
  rcases hc with hc | hc | hc | hc <;>
    simp [sprintfStdoutLine, specStdoutLine, levelColor, levelWord, index, sLogLevelstr,
      sLogPrintColor, hc, String.append_assoc]

/-- What an emission call of severity `s` does on a logger that has a queue. -/
theorem logAt_spec (s : Int) (hs : 0 ≤ s ∧ s ≤ 3) (l : Logger) (q : List Any)
    (hq : l.logList_ = some q) (out : List String) (c : CallSite) :
    logAt s l out c = Except.ok
      (if l.level_ ≤ s ∧ l.type_.testBit 1 = true then
          { l with logList_ := some (q ++ [Any.unitVal
            ⟨c.FileName, c.FuncName, c.Line, s, c.LogStr, c.AddTime⟩]) }
        else l,
       if l.level_ ≤ s ∧ l.type_.testBit 0 = true then
          out ++ [specStdoutLine ⟨c.FileName, c.FuncName, c.Line, s, c.LogStr, c.AddTime⟩]
        else out) := by
  have hline :=
    sprintfStdoutLine_eq ⟨c.FileName, c.FuncName, c.Line, s, c.LogStr, c.AddTime⟩ hs
  by_cases hm : l.level_ ≤ s
  · by_cases h0 : l.type_.testBit 0 = true <;> by_cases h1 : l.type_.testBit 1 = true <;>
      simp [logAt, formatWriteLogMsg, hm, h0, h1, stdout_bit, file_bit, hline, enqueue, hq]
  · simp [logAt, hm]

/-- C3: for a logger with minimum severity `l.level_`, sink mask `l.type_` and a queue, an
emission call `f` of severity `s` (`LOGD`, `LOGI`, `LOGW`, `LOGE` with 0, 1, 2, 3) returns
normally; it prints exactly one line, the coloured terminal line of its record, when
`l.level_ <= s` and bit 0 (STDOUT) of the mask is set, and prints nothing otherwise; it
enqueues exactly one record, of level `s` and with the values of the call site, when
`l.level_ <= s` and bit 1 (FILE) of the mask is set, and leaves the logger as it is otherwise;
the two sinks are decided independently, and when `s < l.level_` or the mask is 0 nothing is
printed and the logger is unchanged. -/
theorem dispatch_admission (l : Logger) (q : List Any) (hq : l.logList_ = some q)
    (out : List String) (c : CallSite)
    (f : Logger → List String → CallSite → Except Fault (Logger × List String)) (s : Int)
    (hf : (f, s) ∈ [(LOGD, (0 : Int)), (LOGI, 1), (LOGW, 2), (LOGE, 3)]) :
    ∃ l1 out1,
      f l out c = Except.ok (l1, out1) ∧
      (out1 = if l.level_ ≤ s ∧ l.type_.testBit 0 = true then
          out ++ [specStdoutLine ⟨c.FileName, c.FuncName, c.Line, s, c.LogStr, c.AddTime⟩]
        else out) ∧
      (l1 = if l.level_ ≤ s ∧ l.type_.testBit 1 = true then
          { l with logList_ := some (q ++ [Any.unitVal
            ⟨c.FileName, c.FuncName, c.Line, s, c.LogStr, c.AddTime⟩]) }
        else l) ∧
      (s < l.level_ ∨ l.type_ = 0 → l1 = l ∧ out1 = out) := by
  have hfs : f = logAt s ∧ 0 ≤ s ∧ s ≤ 3 := by
    simp only [List.mem_cons, Prod.mk.injEq, List.mem_singleton, List.not_mem_nil,
      or_false] at hf
    rcases hf with ⟨rfl, rfl⟩ | ⟨rfl, rfl⟩ | ⟨rfl, rfl⟩ | ⟨rfl, rfl⟩
    · exact ⟨rfl, by decide, by decide⟩
    · exact ⟨rfl, by decide, by decide⟩
    · exact ⟨rfl, by decide, by decide⟩
    · exact ⟨rfl, by decide, by decide⟩
  obtain ⟨hfeq, hs⟩ := hfs
  have hrun := logAt_spec s hs l q hq out c
  refine ⟨_, _, by rw [hfeq]; exact hrun, rfl, rfl, ?_⟩
  intro h
  rcases h with h | h
  · have hn : ¬ l.level_ ≤ s := by omega
    simp [hn]
  · have h0 : l.type_.testBit 0 = false := by rw [h]; rfl
    have h1 : l.type_.testBit 1 = false := by rw [h]; rfl
    simp [h0, h1]

/-! ## Archive names -/

/-- The digit character of a number below ten carries that number. -/
theorem digitChar_value (d : Nat) (h : d < 10) : (Nat.digitChar d).toNat - 48 = d := by
  interval_cases d <;> rfl

theorem toDigitsCore_value (fuel : Nat) :
    ∀ (n : Nat) (ds : List Char), n < fuel →
      ∃ pre, Nat.toDigitsCore 10 fuel n ds = pre ++ ds ∧
        pre.foldl (fun a c => 10 * a + (c.toNat - 48)) 0 = n := by
  induction fuel with
  | zero => intro n ds h; omega
  | succ fuel ih =>
    intro n ds h
    by_cases h0 : n / 10 = 0
    · refine ⟨[Nat.digitChar (n % 10)], ?_, ?_⟩
      · simp [Nat.toDigitsCore, h0]
      · simp only [List.foldl_cons, List.foldl_nil]
        rw [digitChar_value _ (Nat.mod_lt _ (by decide))]
        omega
    · obtain ⟨pre, hpre, hval⟩ := ih (n / 10) (Nat.digitChar (n % 10) :: ds) (by omega)
      refine ⟨pre ++ [Nat.digitChar (n % 10)], ?_, ?_⟩
      · simp [Nat.toDigitsCore, h0, hpre]
      · rw [List.foldl_append, hval]
        simp only [List.foldl_cons, List.foldl_nil]
        rw [digitChar_value _ (Nat.mod_lt _ (by decide))]
        omega

theorem toString_nat_injective (i j : Nat) (h : toString i = toString j) : i = j := by
  have h1 : Nat.toDigits 10 i = Nat.toDigits 10 j := by
    have := congrArg String.data h
    simpa [toString, Nat.repr, List.asString] using this
  obtain ⟨p, hp, hv⟩ := toDigitsCore_value (i + 1) i [] (by omega)
  obtain ⟨q, hq, hw⟩ := toDigitsCore_value (j + 1) j [] (by omega)
  simp only [List.append_nil] at hp hq
  rw [Nat.toDigits, hp, Nat.toDigits, hq] at h1
  rw [← hv, ← hw, h1]

theorem extScan_suffix (rev : List Char) :
    ∀ acc : List Char, extScan rev acc <:+ rev.reverse ++ acc := by
  induction rev with
  | nil => intro acc; exact List.nil_suffix
  | cons c rest ih =>
    intro acc
    by_cases h1 : c = '/'
    · simp [extScan, h1]
    · by_cases h2 : c = '.'
      · subst h2
        simp only [extScan, h1, if_false, if_true, List.reverse_cons, List.append_assoc,
          List.singleton_append]
        exact List.suffix_append _ _
      · simp only [extScan, h1, h2, if_false, List.reverse_cons, List.append_assoc,
          List.singleton_append]
        exact ih (c :: acc)

theorem Ext_suffix (path : String) : (Ext path).data <:+ path.data := by
  have := extScan_suffix path.data.reverse []
  simpa [Ext] using this

/-- The stem and the extension of a path put the path back together. -/
theorem stem_append_ext (filename : String) :
    TrimSuffix filename (Ext filename) ++ Ext filename = filename := by
  have hs := Ext_suffix filename
  have hb : (Ext filename).data.isSuffixOf filename.data = true := by
    simpa using hs
  obtain ⟨t, ht⟩ := hs
  apply String.ext
  rw [String.data_append, TrimSuffix, if_pos hb]
  simp only
  rw [← ht]
  simp

theorem slotName_ne_empty (stem : String) (i : Nat) (suffix : String) :
    slotName stem i suffix ≠ "" := by
  intro h
  have := congrArg String.length h
  simp [slotName, String.length_append] at this
  exact absurd this.1.1.2 (by decide)

theorem slotName_ne_active (stem : String) (i : Nat) (suffix : String) :
    slotName stem i suffix ≠ stem ++ suffix := by
  intro h
  have := congrArg String.length h
  simp only [slotName, String.length_append] at this
  have h1 : ".".length = 1 := rfl
  omega

theorem slotName_injective (stem suffix : String) (i j : Nat)
    (h : slotName stem i suffix = slotName stem j suffix) : i = j := by
  apply toString_nat_injective
  have := congrArg String.data h
  simp only [slotName, String.data_append] at this
  have h2 := List.append_cancel_right this
  have h3 := List.append_cancel_left h2
  exact String.ext h3

/-! ## Rotation -/

/-- A rename of a regular file onto a path that is not a directory moves the file there and
changes nothing else. -/
theorem Rename_moves (d : Disk) (oldpath newpath content : String) (mtime : Int)
    (hold : d.node oldpath = some (Node.file content mtime)) (hne : newpath ≠ "")
    (hdiff : newpath ≠ oldpath) (hnd : d.node newpath ≠ some Node.dir) :
    (Rename d oldpath newpath).node newpath = some (Node.file content mtime) ∧
      (Rename d oldpath newpath).node oldpath = none ∧
      ∀ p, p ≠ newpath → p ≠ oldpath → (Rename d oldpath newpath).node p = d.node p := by
  have hform : Rename d oldpath newpath =
      { d with node := fun p =>
          if p = newpath then some (Node.file content mtime)
          else if p = oldpath then none
          else d.node p } := by
    cases hn : d.node newpath with
    | none => simp [Rename, hold, hne, hn]
    | some nd =>
      cases nd with
      | dir => exact absurd hn hnd
      | file c m => simp [Rename, hold, hne, hn]
  rw [hform]
  refine ⟨by simp, ?_, ?_⟩
  · simp [Ne.symm hdiff]
  · intro p h1 h2
    simp [h1, h2]

theorem isFile_file (d : Disk) (p content : String) (mtime : Int)
    (h : d.node p = some (Node.file content mtime)) :
    isFile d p = some { Size := content.utf8ByteSize, ModTimeUnix := mtime } := by
  simp [isFile, h]

/-- Once no remaining slot is older than `oldest`, the scan keeps `newpath` to the end. -/
theorem reuseScan_keep (d : Disk) (filename stem suffix : String) (mt : Nat → Int) :
    ∀ (k i : Nat) (oldest : Int) (newpath : String),
      (∀ t, i ≤ t → t < i + k → ∃ c, d.node (slotName stem t suffix) = some (Node.file c (mt t))) →
      (∀ t, i ≤ t → t < i + k → oldest ≤ mt t) →
      reuseScan d filename stem suffix k i oldest newpath = Rename d filename newpath := by
  intro k
  induction k with
  | zero => intro i oldest newpath _ _; rfl
  | succ k ih =>
    intro i oldest newpath hfile hold
    obtain ⟨c, hc⟩ := hfile i (le_refl i) (by omega)
    have hle := hold i (le_refl i) (by omega)
    simp only [reuseScan, isFile_file d _ c (mt i) hc]
    rw [if_neg (by omega)]
    exact ih (i + 1) oldest newpath (fun t h1 h2 => hfile t (by omega) (by omega))
      (fun t h1 h2 => hold t (by omega) (by omega))

/-- With regular files in all remaining slots, the scan ends by renaming onto the slot `j` that
is older than `oldest`, not younger than any remaining slot and older than every remaining
slot before it. -/
theorem reuseScan_evicts (d : Disk) (filename stem suffix : String) (mt : Nat → Int) (j : Nat) :
    ∀ (k i : Nat) (oldest : Int) (newpath : String),
      (∀ t, i ≤ t → t < i + k → ∃ c, d.node (slotName stem t suffix) = some (Node.file c (mt t))) →
      i ≤ j → j < i + k → mt j < oldest →
      (∀ t, i ≤ t → t < i + k → mt j ≤ mt t) → (∀ t, i ≤ t → t < j → mt j < mt t) →
      reuseScan d filename stem suffix k i oldest newpath =
        Rename d filename (slotName stem j suffix) := by
  intro k
  induction k with
  | zero => intro i oldest newpath _ h1 h2; omega
  | succ k ih =>
    intro i oldest newpath hfile hij hjk hlt hmin hfirst
    obtain ⟨c, hc⟩ := hfile i (le_refl i) (by omega)
    simp only [reuseScan, isFile_file d _ c (mt i) hc]
    by_cases hji : j = i
    · subst hji
      rw [if_pos (by omega)]
      exact reuseScan_keep d filename stem suffix mt k (j + 1) (mt j) _
        (fun t h1 h2 => hfile t (by omega) (by omega))
        (fun t h1 h2 => hmin t (by omega) (by omega))
    · have hlt2 : mt j < mt i := hfirst i (le_refl i) (by omega)
      by_cases hold : oldest > mt i
      · rw [if_pos hold]
        exact ih (i + 1) (mt i) _ (fun t h1 h2 => hfile t (by omega) (by omega)) (by omega)
          (by omega) hlt2 (fun t h1 h2 => hmin t (by omega) (by omega))
          (fun t h1 h2 => hfirst t (by omega) h2)
      · rw [if_neg hold]
        exact ih (i + 1) oldest _ (fun t h1 h2 => hfile t (by omega) (by omega)) (by omega)
          (by omega) hlt (fun t h1 h2 => hmin t (by omega) (by omega))
          (fun t h1 h2 => hfirst t (by omega) h2)

/-- With regular files in the slots before `j` and nothing usable at slot `j`, the scan ends by
renaming onto slot `j`. -/
theorem reuseScan_free (d : Disk) (filename stem suffix : String) (j : Nat) :
    ∀ (k i : Nat) (oldest : Int) (newpath : String),
      (∀ t, i ≤ t → t < j → ∃ c m, d.node (slotName stem t suffix) = some (Node.file c m)) →
      i ≤ j → j < i + k → isFile d (slotName stem j suffix) = none →
      reuseScan d filename stem suffix k i oldest newpath =
        Rename d filename (slotName stem j suffix) := by
  intro k
  induction k with
  | zero => intro i oldest newpath _ h1 h2; omega
  | succ k ih =>
    intro i oldest newpath hfile hij hjk hfree
    by_cases hji : j = i
    · subst hji
      simp only [reuseScan, hfree]
    · obtain ⟨c, m, hc⟩ := hfile i (le_refl i) (by omega)
      simp only [reuseScan, isFile_file d _ c m hc]
      by_cases hold : oldest > m
      · rw [if_pos hold]
        exact ih (i + 1) m _ (fun t h1 h2 => hfile t (by omega) h2) (by omega) (by omega) hfree
      · rw [if_neg hold]
        exact ih (i + 1) oldest _ (fun t h1 h2 => hfile t (by omega) h2) (by omega) (by omega)
          hfree

/-- C4: with the active file present and every archive slot `1..maxsize` holding a regular file
whose modification time (whole Unix seconds) is earlier than the time of the call, `reuseFile`
renames the active file over the slot `j` whose modification time is the oldest, the
lowest-numbered one among those tied for oldest; every other slot, and every other path, is
unchanged.  The slot of `p` with number `t` is `slotName (TrimSuffix p (Ext p)) t (Ext p)`. -/
theorem reuseFile_evicts_oldest (d : Disk) (now : Int) (filename content : String) (mtime : Int)
    (maxsize : Int) (mt : Nat → Int) (j : Nat)
    (hactive : d.node filename = some (Node.file content mtime))
    (hslots : ∀ t : Nat, 1 ≤ t → (t : Int) ≤ maxsize →
      (∃ c, d.node (slotName (TrimSuffix filename (Ext filename)) t (Ext filename))
        = some (Node.file c (mt t))) ∧ mt t < now)
    (hj : 1 ≤ j ∧ (j : Int) ≤ maxsize)
    (hmin : ∀ t : Nat, 1 ≤ t → (t : Int) ≤ maxsize → mt j ≤ mt t)
    (hfirst : ∀ t : Nat, 1 ≤ t → t < j → mt j < mt t) :
    (reuseFile d now filename maxsize).node
        (slotName (TrimSuffix filename (Ext filename)) j (Ext filename))
        = some (Node.file content mtime) ∧
      (reuseFile d now filename maxsize).node filename = none ∧
      (∀ t : Nat, t ≠ j →
        (reuseFile d now filename maxsize).node
            (slotName (TrimSuffix filename (Ext filename)) t (Ext filename))
          = d.node (slotName (TrimSuffix filename (Ext filename)) t (Ext filename))) ∧
      (∀ p, p ≠ filename →
        p ≠ slotName (TrimSuffix filename (Ext filename)) j (Ext filename) →
        (reuseFile d now filename maxsize).node p = d.node p) := by
  obtain ⟨hj1, hj2⟩ := hj
  have hname : ∀ t, slotName (TrimSuffix filename (Ext filename)) t (Ext filename) ≠ filename := by
    intro t h
    have := slotName_ne_active (TrimSuffix filename (Ext filename)) t (Ext filename)
    rw [stem_append_ext] at this
    exact this h
  have hrun : reuseFile d now filename maxsize =
      Rename d filename (slotName (TrimSuffix filename (Ext filename)) j (Ext filename)) := by
    rw [reuseFile]
    exact reuseScan_evicts d filename _ _ mt j maxsize.toNat 1 now ""
      (fun t h1 h2 => (hslots t h1 (by omega)).1) hj1 (by omega)
      (hslots j hj1 hj2).2 (fun t h1 h2 => hmin t h1 (by omega)) hfirst
  obtain ⟨cj, hcj⟩ := (hslots j hj1 hj2).1
  obtain ⟨h1, h2, h3⟩ := Rename_moves d filename _ content mtime hactive
    (slotName_ne_empty _ j _) (hname j) (by rw [hcj]; simp)
  rw [hrun]
  refine ⟨h1, h2, ?_, fun p hp1 hp2 => h3 p hp2 hp1⟩
  intro t ht
  exact h3 _ (fun h => ht (slotName_injective _ _ t j h)) (hname t)

/-- C5 (amended): with the active file present, regular files in the slots before `j` and
nothing at slot `j` (`1 <= j <= maxsize`), `reuseFile` renames the active file into slot `j`:
afterwards that slot holds the prior content of the active file, the active path is absent,
and every other slot, and every other path, is unchanged. -/
theorem reuseFile_fills_first_free (d : Disk) (now : Int) (filename content : String)
    (mtime : Int) (maxsize : Int) (j : Nat)
    (hactive : d.node filename = some (Node.file content mtime))
    (hj : 1 ≤ j ∧ (j : Int) ≤ maxsize)
    (hbelow : ∀ t : Nat, 1 ≤ t → t < j →
      ∃ c m, d.node (slotName (TrimSuffix filename (Ext filename)) t (Ext filename))
        = some (Node.file c m))
    (hfree : d.node (slotName (TrimSuffix filename (Ext filename)) j (Ext filename)) = none) :
    (reuseFile d now filename maxsize).node
        (slotName (TrimSuffix filename (Ext filename)) j (Ext filename))
        = some (Node.file content mtime) ∧
      (reuseFile d now filename maxsize).node filename = none ∧
      (∀ t : Nat, t ≠ j →
        (reuseFile d now filename maxsize).node
            (slotName (TrimSuffix filename (Ext filename)) t (Ext filename))
          = d.node (slotName (TrimSuffix filename (Ext filename)) t (Ext filename))) ∧
      (∀ p, p ≠ filename →
        p ≠ slotName (TrimSuffix filename (Ext filename)) j (Ext filename) →
        (reuseFile d now filename maxsize).node p = d.node p) := by
  obtain ⟨hj1, hj2⟩ := hj
  have hname : ∀ t, slotName (TrimSuffix filename (Ext filename)) t (Ext filename) ≠ filename := by
    intro t h
    have := slotName_ne_active (TrimSuffix filename (Ext filename)) t (Ext filename)
    rw [stem_append_ext] at this
    exact this h
  have hrun : reuseFile d now filename maxsize =
      Rename d filename (slotName (TrimSuffix filename (Ext filename)) j (Ext filename)) := by
    rw [reuseFile]
    exact reuseScan_free d filename _ _ j maxsize.toNat 1 now "" hbelow hj1 (by omega)
      (by simp [isFile, hfree])
  obtain ⟨h1, h2, h3⟩ := Rename_moves d filename _ content mtime hactive
    (slotName_ne_empty _ j _) (hname j) (by rw [hfree]; simp)
  rw [hrun]
  refine ⟨h1, h2, ?_, fun p hp1 hp2 => h3 p hp2 hp1⟩
  intro t ht
  exact h3 _ (fun h => ht (slotName_injective _ _ t j h)) (hname t)

/-! ## The flush call in the initial state -/

/-- C10: in the initial state of the package (`SetLogInfo` never called) the list pointer of
`slogger` is nil, so the first `dequeue` of `SyncToFile` dereferences a nil pointer and the
call panics instead of returning, whatever the disk and the time. -/
theorem SyncToFile_unconfigured_panics (d : Disk) (now : Int) :
    SyncToFile sloggerInit d now = Except.error Fault.nilDereference := by
  rfl

/-! ## Rotation when no archive is older than the call -/

/-- C6: with one archive slot, occupied by a file whose modification time is the second of the
call, `reuseFile` changes nothing: the active path still holds its file and the slot still
holds the old archive. -/
theorem reuseFile_keeps_active_when_nothing_older :
    (reuseFile freshArchiveDisk 10 "a.log" 1).node "a.log" = some (Node.file "new" 9) ∧
      (reuseFile freshArchiveDisk 10 "a.log" 1).node "a.1.log" = some (Node.file "old" 10) ∧
      slotName (TrimSuffix "a.log" (Ext "a.log")) 1 (Ext "a.log") = "a.1.log" := by
  decide

/-- C5 (as stated): with a directory at the name of slot 1 and nothing at slot 2, `reuseFile`
leaves the active file where it is and moves nothing into a slot. -/
theorem reuseFile_stops_at_directory_slot :
    dirSlotDisk.node "a.log" = some (Node.file "new" 9) ∧
      dirSlotDisk.node "a.2.log" = none ∧
      isFile dirSlotDisk "a.1.log" = none ∧
      (reuseFile dirSlotDisk 10 "a.log" 2).node "a.log" = some (Node.file "new" 9) ∧
      (reuseFile dirSlotDisk 10 "a.log" 2).node "a.1.log" = some Node.dir ∧
      (reuseFile dirSlotDisk 10 "a.log" 2).node "a.2.log" = none := by
  decide

/-! ## A flush that cannot open the file -/

/-- C7 (as stated): a timer-branch flush on a disk that refuses the open returns with the
bytes still in the buffer, and the flush of the next timer tick, on a disk that allows the
open, writes those bytes to the file. -/
theorem failed_flush_is_retried :
    writeFile (lockedDiskOf []) 0 "app.log" "x\n"
        = (lockedDiskOf [], "x\n", some OsError.pathError) ∧
      (timerBranch 0 (SetLogInfo 0 2 "app.log").1 (lockedDiskOf []) "x\n").2 = "x\n" ∧
      fileContent (timerBranch 3 (SetLogInfo 0 2 "app.log").1 (diskOf [])
        (timerBranch 0 (SetLogInfo 0 2 "app.log").1 (lockedDiskOf []) "x\n").2).1 "app.log"
        = "x\n" := by
  refine ⟨rfl, ?_, ?_⟩ <;> decide

theorem writeFile_closed (d : Disk) (now : Int) (f bf : String)
    (hfail : canOpen d f = false) :
    (writeFile d now f bf).1 = d ∧ (writeFile d now f bf).2.1 = bf := by
  by_cases hbf : bf = ""
  · subst hbf
    exact ⟨rfl, rfl⟩
  · rw [writeFile_fail d now f bf hbf hfail]
    exact ⟨rfl, rfl⟩

theorem Rename_deny (d : Disk) (oldpath newpath : String) :
    (Rename d oldpath newpath).deny = d.deny := by
  unfold Rename
  split
  · split
    · rfl
    · split <;> rfl
  · rfl

theorem Rename_dir_at_old (d : Disk) (oldpath newpath : String) :
    (Rename d oldpath newpath).node oldpath = some Node.dir ↔ d.node oldpath = some Node.dir := by
  cases hold : d.node oldpath with
  | none => simp [Rename, hold]
  | some nd =>
    cases nd with
    | dir => simp [Rename, hold]
    | file content mtime =>
      by_cases hne : newpath = ""
      · simp [Rename, hold, hne]
      · cases hnew : d.node newpath with
        | none =>
          by_cases hsame : oldpath = newpath <;> simp [Rename, hold, hne, hnew, hsame]
        | some nd2 =>
          cases nd2 with
          | dir => simp [Rename, hold, hne, hnew]
          | file c2 m2 =>
            by_cases hsame : oldpath = newpath <;> simp [Rename, hold, hne, hnew, hsame]

theorem reuseScan_is_Rename (d : Disk) (filename stem suffix : String) :
    ∀ (k i : Nat) (oldest : Int) (newpath : String),
      ∃ p, reuseScan d filename stem suffix k i oldest newpath = Rename d filename p := by
  intro k
  induction k with
  | zero => intro i oldest newpath; exact ⟨newpath, rfl⟩
  | succ k ih =>
    intro i oldest newpath
    cases hf : isFile d (slotName stem i suffix) with
    | none => exact ⟨slotName stem i suffix, by simp [reuseScan, hf]⟩
    | some fhandler =>
      by_cases hold : oldest > fhandler.ModTimeUnix
      · obtain ⟨p, hp⟩ := ih (i + 1) fhandler.ModTimeUnix (slotName stem i suffix)
        exact ⟨p, by simp only [reuseScan, hf, if_pos hold, hp]⟩
      · obtain ⟨p, hp⟩ := ih (i + 1) oldest newpath
        exact ⟨p, by simp only [reuseScan, hf, if_neg hold, hp]⟩

/-- The rotation check does not change whether the active path can be opened. -/
theorem canOpen_rotationCheck (now : Int) (l : Logger) (d : Disk) :
    canOpen (rotationCheck now l d) l.filename_ = canOpen d l.filename_ := by
  unfold rotationCheck
  split
  · obtain ⟨p, hp⟩ := reuseScan_is_Rename d l.filename_
      (TrimSuffix l.filename_ (Ext l.filename_)) (Ext l.filename_) LOG_SAVE_MAXSIZE.toNat 1 now ""
    have hr : reuseFile d now l.filename_ LOG_SAVE_MAXSIZE = Rename d l.filename_ p := hp
    have h1 := Rename_deny d l.filename_ p
    have h2 := Rename_dir_at_old d l.filename_ p
    rw [hr]
    by_cases hdir : d.node l.filename_ = some Node.dir
    · simp [canOpen, h1, h2.2 hdir, hdir]
    · have hdir2 : (Rename d l.filename_ p).node l.filename_ ≠ some Node.dir :=
        fun h => hdir (h2.1 h)
      have hb1 : ((Rename d l.filename_ p).node l.filename_ != some Node.dir) = true :=
        bne_iff_ne.2 hdir2
      have hb2 : (d.node l.filename_ != some Node.dir) = true := bne_iff_ne.2 hdir
      simp only [canOpen, h1, hb1, hb2]
  · rfl

theorem timerBranch_eq (now : Int) (l : Logger) (d : Disk) (bf : String) :
    timerBranch now l d bf =
      ((writeFile (rotationCheck now l d) now l.filename_ bf).1,
        (writeFile (rotationCheck now l d) now l.filename_ bf).2.1) := by
  rfl

/-- With a target that cannot be opened, the wake branch keeps every line in the buffer and
leaves the disk as it was, whether or not the threshold is crossed. -/
theorem wakeLoop_closed (now : Int) (d : Disk) (rs : List stLogUnit) :
    ∀ (fuel : Nat) (l : Logger) (bf : String),
      l.logList_ = some (rs.map Any.unitVal) → (∀ r ∈ rs, levelOk r) → rs.length < fuel →
      canOpen d l.filename_ = false →
      wakeLoop now fuel l d bf
        = Except.ok ({ l with logList_ := some [] }, d, bf ++ specLines rs) := by
  induction rs with
  | nil =>
    intro fuel l bf hq _ hfuel _
    obtain ⟨k, rfl⟩ : ∃ k, fuel = k + 1 := ⟨fuel - 1, by simp at hfuel; omega⟩
    have hl : ({ l with logList_ := some [] } : Logger) = l := by
      cases l
      simp_all
    simp only [wakeLoop, dequeue_nil l hq, hl, specLines, String.append_empty]
  | cons r rs ih =>
    intro fuel l bf hq hlv hfuel hfail
    obtain ⟨k, rfl⟩ : ∃ k, fuel = k + 1 := ⟨fuel - 1, by simp at hfuel; omega⟩
    have hr : levelOk r := hlv r (List.mem_cons_self r rs)
    have hrest : ∀ x ∈ rs, levelOk x := fun x hx => hlv x (List.mem_cons_of_mem r hx)
    have hk : rs.length < k := by simp at hfuel; omega
    obtain ⟨hd, hb⟩ := writeFile_closed d now l.filename_ (bf ++ specLine r) hfail
    simp only [wakeLoop, dequeue_cons l r rs hq, sprintfFileLine_eq r hr]
    have hnext := ih k { l with logList_ := some (rs.map Any.unitVal) } (bf ++ specLine r) rfl
      hrest hk hfail
    by_cases hbig : (bf ++ specLine r).utf8ByteSize > LOG_BUFFER_MAXSIZE
    · rw [if_pos hbig]
      show wakeLoop now k { l with logList_ := some (rs.map Any.unitVal) }
        (writeFile d now l.filename_ (bf ++ specLine r)).1
        (writeFile d now l.filename_ (bf ++ specLine r)).2.1 = _
      rw [hd, hb, hnext]
      simp [specLines, String.append_assoc]
    · rw [if_neg hbig, hnext]
      simp [specLines, String.append_assoc]

/-- C7 (amended): when a flush of the background writer fails because the target cannot be
opened, `writeFile` returns the error and nothing is dropped.  The timer branch returns with
the buffer of the writer as it was; a pass of the wake branch returns with the disk as it was
and the buffer holding its prior bytes followed by every line dequeued in the pass.  The bytes
are written by the next flush whose open succeeds: the flush of a later timer tick appends the
buffer, with whatever was added to it since, to the active file, and so does the flush of a
later wake-branch iteration that finds the buffer longer than 4096 bytes. -/
theorem failed_flush_keeps_buffer (now : Int) (l : Logger) (d : Disk) (bf : String)
    (hbf : bf ≠ "") (hfail : canOpen d l.filename_ = false) :
    writeFile d now l.filename_ bf = (d, bf, some OsError.pathError) ∧
      timerBranch now l d bf = (rotationCheck now l d, bf) ∧
      (∀ rs : List stLogUnit, l.logList_ = some (rs.map Any.unitVal) → (∀ r ∈ rs, levelOk r) →
        wakeBranch now l d bf
          = Except.ok ({ l with logList_ := some [] }, d, bf ++ specLines rs)) ∧
      (∀ (d2 : Disk) (now2 : Int) (more : String), canOpen d2 l.filename_ = true →
        (timerBranch now2 l d2 ((timerBranch now l d bf).2 ++ more)).2 = "" ∧
        fileContent (timerBranch now2 l d2 ((timerBranch now l d bf).2 ++ more)).1 l.filename_
          = fileContent (rotationCheck now2 l d2) l.filename_ ++ bf ++ more) ∧
      (∀ (d2 : Disk) (now2 : Int) (fuel : Nat) (r : stLogUnit) (rs : List stLogUnit),
        l.logList_ = some ((r :: rs).map Any.unitVal) → levelOk r →
        canOpen d2 l.filename_ = true →
        ((timerBranch now l d bf).2 ++ specLine r).utf8ByteSize > 4096 →
        wakeLoop now2 (fuel + 1) l d2 (timerBranch now l d bf).2 =
          wakeLoop now2 fuel { l with logList_ := some (rs.map Any.unitVal) }
            (writeFile d2 now2 l.filename_ (bf ++ specLine r)).1 "" ∧
        fileContent (writeFile d2 now2 l.filename_ (bf ++ specLine r)).1 l.filename_
          = fileContent d2 l.filename_ ++ (bf ++ specLine r)) := by
  have hrot : canOpen (rotationCheck now l d) l.filename_ = false := by
    rw [canOpen_rotationCheck, hfail]
  have htimer : timerBranch now l d bf = (rotationCheck now l d, bf) := by
    obtain ⟨h1, h2⟩ := writeFile_closed (rotationCheck now l d) now l.filename_ bf hrot
    rw [timerBranch_eq, h1, h2]
  have hbuf : (timerBranch now l d bf).2 = bf := by rw [htimer]
  refine ⟨writeFile_fail d now l.filename_ bf hbf hfail, htimer, ?_, ?_, ?_⟩
  · intro rs hq hlv
    have hlen : queueLen l = rs.length := by simp [queueLen, hq]
    exact wakeLoop_closed now d rs (queueLen l + 1) l bf hq hlv (by omega) hfail
  · intro d2 now2 more hopen
    have hne : bf ++ more ≠ "" := by
      intro h
      apply hbf
      have hl := congrArg String.length h
      simp only [String.length_append] at hl
      apply String.ext
      have h0 : bf.data.length = 0 := by
        have : "".length = 0 := rfl
        have hb : bf.length = bf.data.length := rfl
        omega
      exact List.length_eq_zero.mp h0
    have hopen2 : canOpen (rotationCheck now2 l d2) l.filename_ = true := by
      rw [canOpen_rotationCheck, hopen]
    obtain ⟨hb, hcontent, _, _, _⟩ :=
      writeFile_ok (rotationCheck now2 l d2) now2 l.filename_ (bf ++ more) hne hopen2
    rw [hbuf, timerBranch_eq]
    exact ⟨congrArg Prod.fst hb, by rw [hcontent, String.append_assoc]⟩
  · intro d2 now2 fuel r rs hq hr hopen hbig
    rw [hbuf] at hbig ⊢
    exact wakeLoop_flushes_at_once now2 fuel l d2 bf r rs hq hr hopen hbig

theorem failed_flush_keeps_buffer_witness :
    canOpen (lockedDiskOf []) sampleLogger.filename_ = false ∧
      writeFile (lockedDiskOf []) 0 "app.log" "x\n"
        = (lockedDiskOf [], "x\n", some OsError.pathError) ∧
      (timerBranch 0 sampleLogger (lockedDiskOf []) "x\n").2 = "x\n" ∧
      (∃ d1, wakeBranch 0 sampleLogger (lockedDiskOf []) "x\n"
        = Except.ok ({ sampleLogger with logList_ := some [] }, d1, "x\n" ++ specLines sampleUnits)) ∧
      fileContent (timerBranch 3 sampleLogger (diskOf [])
        ((timerBranch 0 sampleLogger (lockedDiskOf []) "x\n").2 ++ "y\n")).1 "app.log"
        = "x\ny\n" := by
  obtain ⟨h1, h2, h3, h4, _⟩ :=
    failed_flush_keeps_buffer 0 sampleLogger (lockedDiskOf []) "x\n" (by decide) (by decide)
  refine ⟨by decide, h1, by rw [h2], ⟨_, h3 sampleUnits rfl (by simp [sampleUnits, levelOk])⟩, ?_⟩
  have h5 := (h4 (diskOf []) 3 "y\n" (by decide)).2
  have h6 : fileContent (rotationCheck 3 sampleLogger (diskOf [])) sampleLogger.filename_ = "" := by
    decide
  rw [h6] at h5
  exact h5

/-! ## Lost wake-up -/

theorem stranded_tick_cycle (s : Sys) (hw : s.writer = WriterPc.selecting)
    (hstop : s.slogger.stop_ = false) (n : Nat) :
    s.run (idleTicks n) = some s := by
  induction n with
  | zero => rfl
  | succ n ih =>
    have hstep : s.run [Event.tick, Event.block] = some s := by
      cases s
      simp_all [Sys.run, Sys.step, afterSelect]
    have hrun : ∀ (es fs : List Event) (a b : Sys), a.run es = some b →
        a.run (es ++ fs) = b.run fs := by
      intro es
      induction es with
      | nil =>
        intro fs a b h
        simp only [Sys.run, Option.some.injEq] at h
        rw [h, List.nil_append]
      | cons e es ihe =>
        intro fs a b h
        simp only [Sys.run, List.cons_append] at h ⊢
        cases hs : a.step e with
        | none => rw [hs] at h; simp at h
        | some a1 =>
          rw [hs] at h
          simp only at h ⊢
          exact ihe fs a1 b h
    show s.run ([Event.tick, Event.block] ++ idleTicks n) = some s
    rw [hrun _ _ s s hstep]
    exact ih

/-- C8: right after `SetLogInfo` with the file sink, a producer that enqueues a record before
the writer goroutine has reached its `select` finds no receiver on the unbuffered channel, so
its wake send is dropped; the writer then blocks in `select` with the record in the queue, no
wake pending and no producer in `enqueue`, and every later timer tick leaves the record where
it is: nothing has been dequeued and the state repeats. -/
theorem lost_wake_strands_record (level : Int) (filename : String) (r : stLogUnit) :
    ∃ s, (Sys.start level LOG_TYPE_FILE filename).run [Event.push r, Event.send, Event.block]
        = some s ∧
      s.writer = WriterPc.selecting ∧ s.sending = 0 ∧
      s.slogger.logList_ = some [Any.unitVal r] ∧ s.drained = [] ∧
      ∀ n : Nat, s.run (idleTicks n) = some s := by
  refine ⟨{ slogger := { (SetLogInfo level LOG_TYPE_FILE filename).1 with
              logList_ := some [Any.unitVal r] },
            writer := WriterPc.selecting, sending := 0, drained := [] }, ?_, rfl, rfl, rfl, rfl, ?_⟩
  · rfl
  · intro n
    exact stranded_tick_cycle _ rfl rfl n

/-! ## Instances -/

theorem SyncToFile_drains_witness :
    canOpen (diskOf []) sampleLogger.filename_ = true ∧
    ∃ d1, SyncToFile sampleLogger (diskOf []) 7
        = Except.ok ({ sampleLogger with logList_ := some [] }, d1) ∧
      fileContent d1 sampleLogger.filename_
        = fileContent (diskOf []) sampleLogger.filename_ ++ specLines sampleUnits ∧
      (∀ p, p ≠ sampleLogger.filename_ → d1.node p = (diskOf []).node p) ∧
      (sampleUnits ≠ [] → d1.writes = (diskOf []).writes + 1) ∧
      (sampleUnits = [] → d1 = diskOf []) :=
  ⟨by decide, SyncToFile_drains sampleLogger (diskOf []) 7 sampleUnits rfl
    (by simp [sampleUnits, levelOk]) (by decide)⟩

theorem wakeBranch_bounded_lossless_witness :
    "".utf8ByteSize ≤ 4096 ∧
    ∃ d1 bf1, wakeBranch 7 sampleLogger (diskOf []) ""
        = Except.ok ({ sampleLogger with logList_ := some [] }, d1, bf1) ∧
      bf1.utf8ByteSize ≤ 4096 ∧
      fileContent d1 sampleLogger.filename_ ++ bf1
        = fileContent (diskOf []) sampleLogger.filename_ ++ "" ++ specLines sampleUnits ∧
      (∀ p, p ≠ sampleLogger.filename_ → d1.node p = (diskOf []).node p) :=
  ⟨by decide, wakeBranch_bounded_lossless 7 sampleLogger (diskOf []) "" sampleUnits rfl
    (by simp [sampleUnits, levelOk]) (by decide) (by decide)⟩

theorem dispatch_admission_witness :
    ∃ l1 out1,
      LOGW (SetLogInfo 1 3 "app.log").1 []
        ⟨"main.go", "main", 10, "2024-01-01 00:00:00 000", "disk low"⟩ = Except.ok (l1, out1) ∧
      out1 = ["\x1b[33m[2024-01-01 00:00:00 000] [WARNING] main.go(10), main: disk low\x1b[0m\n"] ∧
      l1.logList_ = some [Any.unitVal
        ⟨"main.go", "main", 10, 2, "disk low", "2024-01-01 00:00:00 000"⟩] := by
  obtain ⟨l1, out1, hrun, hout, hl, _⟩ :=
    dispatch_admission (SetLogInfo 1 3 "app.log").1 [] (by decide) []
      ⟨"main.go", "main", 10, "2024-01-01 00:00:00 000", "disk low"⟩ LOGW 2 (by simp)
  refine ⟨l1, out1, hrun, ?_, ?_⟩
  · rw [hout]
    decide
  · rw [hl]
    decide

theorem reuseFile_evicts_oldest_witness :
    (reuseFile fullDisk 10 "a.log" 4).node "a.2.log" = some (Node.file "new" 9) ∧
      (reuseFile fullDisk 10 "a.log" 4).node "a.log" = none ∧
      (reuseFile fullDisk 10 "a.log" 4).node "a.4.log" = fullDisk.node "a.4.log" := by
  have h := reuseFile_evicts_oldest fullDisk 10 "a.log" "new" 9 4 fullDiskTimes 2 (by decide)
    (by
      intro t h1 h2
      have h4 : t ≤ 4 := by omega
      interval_cases t
      · exact ⟨⟨"s1", by decide⟩, by decide⟩
      · exact ⟨⟨"s2", by decide⟩, by decide⟩
      · exact ⟨⟨"s3", by decide⟩, by decide⟩
      · exact ⟨⟨"s4", by decide⟩, by decide⟩)
    (by decide)
    (by
      intro t h1 h2
      have h4 : t ≤ 4 := by omega
      interval_cases t <;> decide)
    (by
      intro t h1 h2
      interval_cases t
      decide)
  exact ⟨h.1, h.2.1, h.2.2.1 4 (by decide)⟩

theorem reuseFile_fills_first_free_witness :
    (reuseFile oneArchiveDisk 10 "a.log" 3).node "a.2.log" = some (Node.file "new" 9) ∧
      (reuseFile oneArchiveDisk 10 "a.log" 3).node "a.log" = none ∧
      (reuseFile oneArchiveDisk 10 "a.log" 3).node "a.1.log" = oneArchiveDisk.node "a.1.log" := by
  have h := reuseFile_fills_first_free oneArchiveDisk 10 "a.log" "new" 9 3 2 (by decide)
    (by decide)
    (by
      intro t h1 h2
      interval_cases t
      exact ⟨"s1", 5, by decide⟩)
    (by decide)
  exact ⟨h.1, h.2.1, h.2.2.1 1 (by decide)⟩

/-! ## The public interface after configuration -/

theorem Ready_SetLogInfo (level ntype : Int) (filename : String) :
    Ready (SetLogInfo level ntype filename).1 := by
  refine ⟨[], ?_, by simp⟩
  by_cases hk : Int.land ntype LOG_TYPE_FILE > 0 <;> simp [SetLogInfo, hk]

theorem Ready_logAt (s : Int) (hs : 0 ≤ s ∧ s ≤ 3) (l : Logger) (out : List String)
    (c : CallSite) (h : Ready l) :
    ∃ l1 out1, logAt s l out c = Except.ok (l1, out1) ∧ Ready l1 := by
  obtain ⟨rs, hq, hlv⟩ := h
  have hrun := logAt_spec s hs l _ hq out c
  refine ⟨_, _, hrun, ?_⟩
  split
  · refine ⟨rs ++ [⟨c.FileName, c.FuncName, c.Line, s, c.LogStr, c.AddTime⟩], by simp, ?_⟩
    intro r hr
    rcases List.mem_append.1 hr with hr | hr
    · exact hlv r hr
    · rw [List.mem_singleton.1 hr]
      exact hs
  · exact ⟨rs, hq, hlv⟩

theorem Ready_SyncToFile (l : Logger) (d : Disk) (now : Int) (h : Ready l) :
    ∃ l1 d1, SyncToFile l d now = Except.ok (l1, d1) ∧ Ready l1 := by
  obtain ⟨rs, hq, hlv⟩ := h
  have hlen : queueLen l = rs.length := by simp [queueLen, hq]
  have hrun := syncLoop_eq d now rs (queueLen l + 1) l "" hq hlv (by omega)
  have hready : Ready { l with logList_ := some [] } := ⟨[], rfl, by simp⟩
  by_cases hpos : ("" ++ specLines rs).utf8ByteSize > 0
  · exact ⟨_, _, by rw [SyncToFile, hrun, if_pos hpos], hready⟩
  · exact ⟨_, _, by rw [SyncToFile, hrun, if_neg hpos], hready⟩

theorem Ready_call (w : World) (c : Call) (h : Ready w.slogger) :
    ∃ w1, w.call c = Except.ok w1 ∧ Ready w1.slogger := by
  cases c with
  | setLogInfo level ntype filename => exact ⟨_, rfl, Ready_SetLogInfo level ntype filename⟩
  | logd c =>
    obtain ⟨l1, out1, hrun, hr⟩ := Ready_logAt 0 (by decide) w.slogger w.out c h
    exact ⟨{ w with slogger := l1, out := out1 }, by simp [World.call, World.emitted, LOGD,
      LOG_LEVEL_DEBUG, hrun], hr⟩
  | logi c =>
    obtain ⟨l1, out1, hrun, hr⟩ := Ready_logAt 1 (by decide) w.slogger w.out c h
    exact ⟨{ w with slogger := l1, out := out1 }, by simp [World.call, World.emitted, LOGI,
      LOG_LEVEL_INFO, hrun], hr⟩
  | logw c =>
    obtain ⟨l1, out1, hrun, hr⟩ := Ready_logAt 2 (by decide) w.slogger w.out c h
    exact ⟨{ w with slogger := l1, out := out1 }, by simp [World.call, World.emitted, LOGW,
      LOG_LEVEL_WARNING, hrun], hr⟩
  | loge c =>
    obtain ⟨l1, out1, hrun, hr⟩ := Ready_logAt 3 (by decide) w.slogger w.out c h
    exact ⟨{ w with slogger := l1, out := out1 }, by simp [World.call, World.emitted, LOGE,
      LOG_LEVEL_ERROR, hrun], hr⟩
  | syncToFile now =>
    obtain ⟨l1, d1, hrun, hr⟩ := Ready_SyncToFile w.slogger w.disk now h
    exact ⟨{ w with slogger := l1, disk := d1 }, by simp [World.call, hrun], hr⟩

/-- Once `SetLogInfo` has been called, every sequence of calls of the public interface returns
normally: no nil list pointer, no failed type assertion, no level outside the table. -/
theorem run_after_SetLogInfo_total (cs : List Call) :
    ∀ w : World, Ready w.slogger → ∃ w1, w.run cs = Except.ok w1 ∧ Ready w1.slogger := by
  induction cs with
  | nil => intro w h; exact ⟨w, rfl, h⟩
  | cons c cs ih =>
    intro w h
    obtain ⟨w1, hcall, h1⟩ := Ready_call w c h
    obtain ⟨w2, hrun, h2⟩ := ih w1 h1
    exact ⟨w2, by simp [World.run, hcall, hrun], h2⟩

/-- In a fresh process the emission calls return normally (only the terminal sink is on), and
the flush call is the one that panics. -/
theorem fresh_process_calls (d : Disk) (c : CallSite) (now : Int) :
    (∃ w1, (World.init d).call (Call.logd c) = Except.ok w1 ∧ w1.slogger = sloggerInit) ∧
      (World.init d).call (Call.syncToFile now) = Except.error Fault.nilDereference := by
  refine ⟨⟨_, rfl, rfl⟩, rfl⟩

end SimpleLog
